import Mathlib

/-!
Verification of the f3dasm job-queue and distributed-execution engine
(`src/f3dasm/design/experimentdata.py`) against its design specification.

The orchestration layer (`ExperimentData`) is embedded from the source.
The columnar store (`_Data`), the job ledger (`_JobQueue`) and the file-lock
decorator (`access_file`) are not part of this source tree; the definitions
below that stand in for them carry a doc comment starting with
`Modelled from the spec:` and follow the specification text.
-/

namespace F3dasm

/-- Modelled from the spec: a cell of the columnar store (`_data.py` is not in
the sources).  Missing output values are represented by a dedicated "unset"
sentinel distinct from any valid numeric value; other cells hold numeric
values or strings (such as the `'ERROR'` marker). -/
inductive Cell where
  | unset : Cell
  | num : Int → Cell
  | str : String → Cell
deriving DecidableEq, Repr

/-- One row of a columnar store: one cell per column, in declared column
order. -/
abbrev Row := List Cell

/-- Update every entry of an index-keyed association list whose key equals
`i` by `f`; the shape shared by the store and ledger point mutations. -/
def updateIdx (l : List (Nat × α)) (i : Nat) (f : α → α) : List (Nat × α) :=
  l.map (fun p => if p.1 = i then (p.1, f p.2) else p)

/-- Look up the value stored at index `i` (the first matching entry). -/
def lookupIdx (l : List (Nat × α)) (i : Nat) : Option α :=
  (l.find? (fun p => p.1 == i)).map Prod.snd

/-- Modelled from the spec: the Columnar Store (`_Data`, not in the sources):
an ordered, index-addressable table of typed values, rows keyed by a dense,
non-negative row index. Two instances exist, one for inputs and one for
outputs, both row-index-aligned. -/
structure DataStore where
  cols : Nat
  rows : List (Nat × Row)
deriving DecidableEq, Repr

namespace DataStore

/-- The row indices of the store, in storage order. -/
def indices (d : DataStore) : List Nat := d.rows.map Prod.fst

/-- Modelled from the spec: row indices are dense non-negative integers, so a
fresh index continues past every index already present. -/
def next_index (d : DataStore) : Nat :=
  d.rows.foldl (fun a p => Nat.max a (p.1 + 1)) 0

/-- Modelled from the spec: `add(rows)` appends new rows (single or batched)
at fresh dense indices. -/
def add (d : DataStore) (rs : List Row) : DataStore :=
  { d with rows := d.rows ++ rs.enum.map (fun p => (d.next_index + p.1, p.2)) }

/-- Modelled from the spec: append `n` rows in which every cell carries the
"unset" sentinel (outputs pending). -/
def add_empty_rows (d : DataStore) (n : Nat) : DataStore :=
  d.add (List.replicate n (List.replicate d.cols Cell.unset))

/-- Point read of one row by index. -/
def getRow (d : DataStore) (i : Nat) : Option Row := lookupIdx d.rows i

/-- Modelled from the spec: point mutation by index and column; when no
column is given the value is broadcast across the whole row (the behaviour of
a frame-wide `loc` assignment, used for the `'ERROR'` output marker). -/
def set_data (d : DataStore) (i : Nat) (v : Cell) (col : Option Nat) : DataStore :=
  { d with rows := updateIdx d.rows i (fun r =>
      match col with
      | some c => r.set c v
      | none => r.map (fun _ => v)) }

/-- Modelled from the spec: remove the rows with the given indices. -/
def remove (d : DataStore) (idx : List Nat) : DataStore :=
  { d with rows := d.rows.filter (fun p => !(idx.contains p.1)) }

/-- Modelled from the spec: slice by index list, keeping the listed rows. -/
def select (d : DataStore) (idx : List Nat) : DataStore :=
  { d with rows := idx.filterMap (fun i => (lookupIdx d.rows i).map (fun r => (i, r))) }

/-- Modelled from the spec: a store with the given indices and no columns
yet (used when the output artefact is absent on load). -/
def from_indices (idx : List Nat) : DataStore :=
  { cols := 0, rows := idx.map (fun i => (i, [])) }

end DataStore

/-- Modelled from the spec: the per-job status state machine of the Job
Ledger (`_jobqueue.py`, not in the sources):
OPEN (initial) → IN_PROGRESS → FINISHED or ERROR (both terminal). -/
inductive Status where
  | opened : Status
  | inProgress : Status
  | finished : Status
  | error : Status
deriving DecidableEq, Repr

/-- Modelled from the spec: the Job Ledger (`_JobQueue`): one status value
per row index. -/
structure JobQueue where
  jobs : List (Nat × Status)
deriving DecidableEq, Repr

namespace JobQueue

/-- The row indices known to the ledger, in storage order. -/
def indices (q : JobQueue) : List Nat := q.jobs.map Prod.fst

/-- The status recorded for index `i`. -/
def status (q : JobQueue) (i : Nat) : Option Status := lookupIdx q.jobs i

/-- Fresh dense index, as for the stores. -/
def next_index (q : JobQueue) : Nat :=
  q.jobs.foldl (fun a p => Nat.max a (p.1 + 1)) 0

/-- Modelled from the spec: `add(n, initial_status)` appends `n` new rows
with the given status (default OPEN; FINISHED when outputs are supplied at
insertion time). -/
def add (q : JobQueue) (n : Nat) (st : Status) : JobQueue :=
  { jobs := q.jobs ++ (List.range n).map (fun k => (q.next_index + k, st)) }

/-- The indices whose status is OPEN. -/
def openIndices (q : JobQueue) : List Nat :=
  q.jobs.filterMap (fun p => if p.2 = Status.opened then some p.1 else none)

/-- Minimum of a list of naturals, `none` on the empty list. -/
def listMin? : List Nat → Option Nat
  | [] => none
  | x :: xs =>
    match listMin? xs with
    | none => some x
    | some m => some (if x ≤ m then x else m)

/-- Modelled from the spec: `claim_one` selects the lowest-index row whose
status is OPEN; the "no open jobs" outcome is the explicit `none` result
(standing for `NoOpenJobsError`). -/
def get_open_job (q : JobQueue) : Option Nat := listMin? q.openIndices

/-- Modelled from the spec: the claim transition OPEN → IN_PROGRESS (only
ever invoked on the index returned by `get_open_job`). -/
def mark_as_in_progress (q : JobQueue) (i : Nat) : JobQueue :=
  { jobs := updateIdx q.jobs i (fun _ => Status.inProgress) }

/-- Modelled from the spec: `complete(index)`: OPEN/IN_PROGRESS → FINISHED,
an idempotent write of FINISHED; there is no transition out of ERROR. -/
def mark_as_finished (q : JobQueue) (i : Nat) : JobQueue :=
  { jobs := updateIdx q.jobs i (fun s => if s = Status.error then s else Status.finished) }

/-- Modelled from the spec: `fail(index)`: → ERROR. -/
def mark_as_error (q : JobQueue) (i : Nat) : JobQueue :=
  { jobs := updateIdx q.jobs i (fun _ => Status.error) }

/-- Modelled from the spec: remove the ledger rows with the given indices. -/
def remove (q : JobQueue) (idx : List Nat) : JobQueue :=
  { jobs := q.jobs.filter (fun p => !(idx.contains p.1)) }

/-- Modelled from the spec: slice the ledger by index list. -/
def select (q : JobQueue) (idx : List Nat) : JobQueue :=
  { jobs := idx.filterMap (fun i => (lookupIdx q.jobs i).map (fun s => (i, s))) }

/-- Number of OPEN entries; the run loops strictly decrease it. -/
def countOpen (q : JobQueue) : Nat :=
  (q.jobs.filter (fun p => p.2 = Status.opened)).length

end JobQueue

/-- Modelled from the spec: the Domain collaborator supplies the named,
typed input columns; only its identity as a serialized artefact matters
here. -/
structure Domain where
  schema : List String
deriving DecidableEq, Repr

/-- The ephemeral, job-scoped view handed to the evaluation callable: one
row of input data, one row of output data, and the row index
(`Design(dict_input, dict_output, jobnumber)`). -/
structure Design where
  dict_input : Row
  dict_output : Row
  job_number : Nat
deriving DecidableEq, Repr

/-- The evaluation callable: a pure function from a `Design` to a `Design`;
an exception it raises is the explicit `Except.error` carrying the message. -/
abbrev Operation := Design → Except String Design

/-- The top-level aggregate `ExperimentData`: a Domain, an input store, an
output store and a job ledger kept index-aligned, plus the base filename of
its persisted form. -/
structure ExperimentData where
  domain : Domain
  input_data : DataStore
  output_data : DataStore
  jobs : JobQueue
  filename : String
deriving DecidableEq, Repr

namespace ExperimentData

/-- `get_design(index)`: the `Design` combining the input row, the output
row and the job number at `index`. -/
def get_design (ed : ExperimentData) (index : Nat) : Design :=
  { dict_input := (ed.input_data.getRow index).getD []
    dict_output := (ed.output_data.getRow index).getD []
    job_number := index }

/-- `set_design(design)`: write every output column of the design back into
the output store at the design's job number, then mark the job FINISHED. -/
def set_design (ed : ExperimentData) (design : Design) : ExperimentData :=
  { ed with
    output_data := design.dict_output.enum.foldl
      (fun s p => s.set_data design.job_number p.2 (some p.1)) ed.output_data
    jobs := ed.jobs.mark_as_finished design.job_number }

/-- `set_outputdata_by_index(index, value, column)`: point-write the output
store and mark the job FINISHED. -/
def set_outputdata_by_index (ed : ExperimentData) (index : Nat) (value : Cell)
    (column : Option Nat) : ExperimentData :=
  { ed with
    output_data := ed.output_data.set_data index value column
    jobs := ed.jobs.mark_as_finished index }

/-- `set_error(index)`: mark the job ERROR, then write the `'ERROR'` marker
across the whole output row (via `set_outputdata_by_index` with no column). -/
def set_error (ed : ExperimentData) (index : Nat) : ExperimentData :=
  let ed1 := { ed with jobs := ed.jobs.mark_as_error index }
  ed1.set_outputdata_by_index index (Cell.str "ERROR") none

/-- `access_open_job_data()`: claim the lowest-index OPEN job (marking it
IN_PROGRESS) and hand out its `Design`; `none` stands for
`NoOpenJobsError`. -/
def access_open_job_data (ed : ExperimentData) : Option (ExperimentData × Design) :=
  match ed.jobs.get_open_job with
  | none => none
  | some j =>
    let ed1 := { ed with jobs := ed.jobs.mark_as_in_progress j }
    some (ed1, ed1.get_design j)

/-- `add(data)`: append the input rows, matching empty output rows, and OPEN
ledger entries (the dtype re-cast of the source does not change any row). -/
def add (ed : ExperimentData) (data : List Row) : ExperimentData :=
  { ed with
    input_data := ed.input_data.add data
    output_data := ed.output_data.add_empty_rows data.length
    jobs := ed.jobs.add data.length Status.opened }

/-- `add_numpy_arrays(input, output)`: append input rows; with no output the
new jobs are OPEN over empty output rows, with an output array they are
FINISHED over the supplied rows. -/
def add_numpy_arrays (ed : ExperimentData) (inp : List Row)
    (out : Option (List Row)) : ExperimentData :=
  match out with
  | none =>
    { ed with
      input_data := ed.input_data.add inp
      output_data := ed.output_data.add_empty_rows inp.length
      jobs := ed.jobs.add inp.length Status.opened }
  | some o =>
    { ed with
      input_data := ed.input_data.add inp
      output_data := ed.output_data.add o
      jobs := ed.jobs.add inp.length Status.finished }

/-- `remove_rows_bottom(number_of_rows)`: drop the last `n` indices of the
input store from all three tables; `n = 0` does nothing. -/
def remove_rows_bottom (ed : ExperimentData) (n : Nat) : ExperimentData :=
  if n = 0 then ed
  else
    let idx := ed.input_data.indices
    let rem := idx.drop (idx.length - n)
    { ed with
      input_data := ed.input_data.remove rem
      output_data := ed.output_data.remove rem
      jobs := ed.jobs.remove rem }

/-- `select(indices)`: a copy restricted to the given indices, applied to
all three tables. -/
def select (ed : ExperimentData) (idx : List Nat) : ExperimentData :=
  { ed with
    input_data := ed.input_data.select idx
    output_data := ed.output_data.select idx
    jobs := ed.jobs.select idx }

end ExperimentData

/-! ## Persistence

Modelled from the spec: the persisted state layout is four co-located
artefacts sharing a base name — input table, output table, job ledger,
domain schema — each independently (de)serializable.  `Disk` is the content
of that shared location; a `none` field is a missing file
(`FileNotFoundError` on read). -/

/-- Modelled from the spec: the shared on-disk representation, four
independently serializable artefacts under one base name. -/
structure Disk where
  data_file : Option DataStore
  output_file : Option DataStore
  jobs_file : Option JobQueue
  domain_file : Option Domain
deriving DecidableEq, Repr

namespace ExperimentData

/-- `store(filename)`: write all four artefacts to the shared location. -/
def store (ed : ExperimentData) : Disk :=
  { data_file := some ed.input_data
    output_file := some ed.output_data
    jobs_file := some ed.jobs
    domain_file := some ed.domain }

/-- `_from_file_attempt(filename)`: read the domain and the input table
(missing files abort the load), fall back to an empty output store over the
input indices when the output artefact is absent, read the ledger, and
record the filename. -/
def from_file_attempt (disk : Disk) (filename : String) :
    Except String ExperimentData :=
  match disk.domain_file with
  | none => Except.error ("Cannot find the file " ++ filename ++ "_data.csv.")
  | some dom =>
    match disk.data_file with
    | none => Except.error ("Cannot find the file " ++ filename ++ "_data.csv.")
    | some inp =>
      let out :=
        match disk.output_file with
        | some o => o
        | none => DataStore.from_indices inp.indices
      match disk.jobs_file with
      | none => Except.error ("Cannot find the file " ++ filename ++ "_data.csv.")
      | some jq =>
        Except.ok
          { domain := dom, input_data := inp, output_data := out,
            jobs := jq, filename := filename }

end ExperimentData

/-! ## Execution strategies -/

namespace ExperimentData

/-- The body of `_run_sequential`: claim the lowest OPEN job, invoke the
operation, on success `set_design`, on exception `set_error`, and continue;
stop on `NoOpenJobsError`.  The fuel argument only bounds the iteration
count (the loop itself runs until no OPEN job remains); alongside the final
state the list of claimed job numbers is returned, in processing order. -/
def run_sequential_go : Nat → Operation → ExperimentData →
    ExperimentData × List Nat
  | 0, _, ed => (ed, [])
  | fuel + 1, op, ed =>
    match ed.access_open_job_data with
    | none => (ed, [])
    | some (ed1, design) =>
      match op design with
      | Except.ok d =>
        let r := run_sequential_go fuel op (ed1.set_design d)
        (r.1, design.job_number :: r.2)
      | Except.error _ =>
        let r := run_sequential_go fuel op (ed1.set_error design.job_number)
        (r.1, design.job_number :: r.2)

/-- `_run_sequential`: the loop with enough fuel to drain every OPEN job
(each iteration claims one OPEN job and no step ever re-opens one). -/
def run_sequential (op : Operation) (ed : ExperimentData) :
    ExperimentData × List Nat :=
  run_sequential_go (ed.jobs.countOpen + 1) op ed

/-- The drain loop opening `_run_multiprocessing`: repeatedly claim open
jobs, collecting the claimed designs in claim order, until
`NoOpenJobsError`. -/
def drain_open_jobs : Nat → ExperimentData → ExperimentData × List Design
  | 0, ed => (ed, [])
  | fuel + 1, ed =>
    match ed.access_open_job_data with
    | none => (ed, [])
    | some (ed1, design) =>
      let r := drain_open_jobs fuel ed1
      (r.1, design :: r.2)

/-- `_run_multiprocessing`: claim all open jobs up front, evaluate the
operation on every claimed design in a worker pool, and only afterwards
write every result back.  A worker exception is re-raised by the pool's
`starmap` in the control thread, so the writeback loop is skipped entirely
and the error propagates out of the run. -/
def run_multiprocessing (op : Operation) (ed : ExperimentData) :
    ExperimentData × Except String (List Nat) :=
  let r := drain_open_jobs (ed.jobs.countOpen + 1) ed
  match r.2.mapM op with
  | Except.error e => (r.1, Except.error e)
  | Except.ok results =>
    (results.foldl (fun s d => s.set_design d) r.1,
      Except.ok (r.2.map Design.job_number))

/-- One atomic critical section of `get_open_job_data` under the file lock
(`access_file`): load the shared state, claim the lowest OPEN job, persist
the claim; `none` when the shared state is unreadable or no OPEN job
remains. -/
def get_open_job_data_disk (disk : Disk) (filename : String) :
    Option (Disk × Design) :=
  match from_file_attempt disk filename with
  | Except.error _ => none
  | Except.ok ed =>
    match ed.access_open_job_data with
    | none => none
    | some (ed1, design) => some (ed1.store, design)

/-- One atomic critical section of `write_design` under the file lock:
load, write the finished design, persist. -/
def write_design_disk (disk : Disk) (filename : String) (design : Design) : Disk :=
  match from_file_attempt disk filename with
  | Except.error _ => disk
  | Except.ok ed => (ed.set_design design).store

/-- One atomic critical section of `write_error` under the file lock:
load, mark the job ERROR, persist. -/
def write_error_disk (disk : Disk) (filename : String) (j : Nat) : Disk :=
  match from_file_attempt disk filename with
  | Except.error _ => disk
  | Except.ok ed => (ed.set_error j).store

/-- The loop of `_run_cluster` for one participating process: atomically
claim a job from the shared state, evaluate the operation outside the lock,
atomically write the result (FINISHED or ERROR) back; stop on
`NoOpenJobsError`. -/
def run_cluster_go : Nat → Operation → String → Disk → Disk
  | 0, _, _, disk => disk
  | fuel + 1, op, filename, disk =>
    match get_open_job_data_disk disk filename with
    | none => disk
    | some (disk1, design) =>
      let disk2 :=
        match op design with
        | Except.ok d => write_design_disk disk1 filename d
        | Except.error _ => write_error_disk disk1 filename design.job_number
      run_cluster_go fuel op filename disk2

/-- `_run_cluster`: reload the shared dataset (persisting the current one
when no shared copy exists yet), then run the claim/evaluate/write loop. -/
def run_cluster (op : Operation) (ed : ExperimentData) (disk : Disk) : Disk :=
  let disk0 :=
    match from_file_attempt disk ed.filename with
    | Except.ok _ => disk
    | Except.error _ => ed.store
  let fuel :=
    match from_file_attempt disk0 ed.filename with
    | Except.ok ed0 => ed0.jobs.countOpen + 1
    | Except.error _ => 1
  run_cluster_go fuel op ed.filename disk0

end ExperimentData

/-- Python's `str.lower()` on the (ASCII) mode string: lower-case every
character. -/
def str_lower (s : String) : String := String.mk (s.data.map Char.toLower)

/-- The `operation` argument of `run` as received: either a callable or
not (`callable(operation)` is checked before anything else). -/
inductive OpArg where
  | callable (f : Operation)
  | notCallable
deriving Inhabited

/-- The errors the `run` entry point can surface: the `TypeError` for a
non-callable operation, the `ValueError` for an invalid mode, and a worker
exception propagated by the parallel pool. -/
inductive RunError where
  | typeError (msg : String)
  | valueError (msg : String)
  | evalError (msg : String)
deriving DecidableEq, Repr

/-- The outcome of `run`: the in-memory dataset, the shared disk state, and
either the list of processed job numbers or the surfaced error. -/
structure RunOutcome where
  ed : ExperimentData
  disk : Disk
  result : Except RunError (List Nat)
deriving Repr

namespace ExperimentData

/-- `run(operation, mode, kwargs)`: raise `TypeError` unless the operation
is callable, then dispatch on the lower-cased mode to one of the three
strategies; any other mode raises
`ValueError("Invalid parallelization mode specified.")`. -/
def run (ed : ExperimentData) (opc : OpArg) (mode : String) (disk : Disk) :
    RunOutcome :=
  match opc with
  | OpArg.notCallable =>
    ⟨ed, disk, Except.error (RunError.typeError "operation must be a function.")⟩
  | OpArg.callable op =>
    if str_lower mode = "sequential" then
      let r := run_sequential op ed
      ⟨r.1, disk, Except.ok r.2⟩
    else if str_lower mode = "parallel" then
      let r := run_multiprocessing op ed
      match r.2 with
      | Except.ok tr => ⟨r.1, disk, Except.ok tr⟩
      | Except.error e => ⟨r.1, disk, Except.error (RunError.evalError e)⟩
    else if str_lower mode = "cluster" then
      ⟨ed, run_cluster op ed disk, Except.ok []⟩
    else
      ⟨ed, disk, Except.error (RunError.valueError "Invalid parallelization mode specified.")⟩

end ExperimentData

/-! ## Cluster mode as an interleaving of atomic critical sections

Every access to the shared state in `_run_cluster` happens inside the
`access_file` lock, so a concurrent execution of `N` worker processes is a
sequence of atomic events, each one worker's lock-held critical section:
a claim (`get_open_job_data`), a successful writeback (`write_design`) or an
error writeback (`write_error`).  The shared state is the persisted
`ExperimentData`; `from_file`/`store` round-trip it, so the event semantics
acts on the dataset directly. -/

/-- One lock-held critical section of some worker `w` in cluster mode. -/
inductive ClusterEvent where
  | claim (w : Nat)
  | writeFin (w : Nat) (d : Design)
  | writeErr (w : Nat) (j : Nat)
deriving DecidableEq, Repr

/-- The atomic effect of a claim on the shared state, together with the
claimed job number (if any). -/
def claim_step (ed : ExperimentData) : ExperimentData × Option Nat :=
  match ed.access_open_job_data with
  | none => (ed, none)
  | some (ed1, design) => (ed1, some design.job_number)

/-- The atomic effect of one cluster event on the shared state. -/
def cluster_apply (ed : ExperimentData) : ClusterEvent → ExperimentData
  | ClusterEvent.claim _ => (claim_step ed).1
  | ClusterEvent.writeFin _ d => ed.set_design d
  | ClusterEvent.writeErr _ j => ed.set_error j

/-- The shared state after a sequence of atomic events. -/
def cluster_run (ed : ExperimentData) (tr : List ClusterEvent) : ExperimentData :=
  tr.foldl cluster_apply ed

/-- The job numbers handed out by the successful claims of a trace, in
claim order. -/
def claimed_indices : ExperimentData → List ClusterEvent → List Nat
  | _, [] => []
  | ed, ClusterEvent.claim _ :: tr =>
    match claim_step ed with
    | (ed1, some j) => j :: claimed_indices ed1 tr
    | (ed1, none) => claimed_indices ed1 tr
  | ed, ClusterEvent.writeFin _ d :: tr => claimed_indices (ed.set_design d) tr
  | ed, ClusterEvent.writeErr _ j :: tr => claimed_indices (ed.set_error j) tr

/-- A trace is protocol-valid when every writeback event is issued by a
worker for a job number that one of its own earlier claims handed out —
which is the only way `_run_cluster` ever writes.  `owned` accumulates the
(worker, job) pairs handed out so far. -/
def cluster_valid_go : ExperimentData → List (Nat × Nat) → List ClusterEvent → Bool
  | _, _, [] => true
  | ed, owned, ClusterEvent.claim w :: tr =>
    match claim_step ed with
    | (ed1, some j) => cluster_valid_go ed1 ((w, j) :: owned) tr
    | (ed1, none) => cluster_valid_go ed1 owned tr
  | ed, owned, ClusterEvent.writeFin w d :: tr =>
    owned.contains (w, d.job_number) &&
      cluster_valid_go (ed.set_design d) owned tr
  | ed, owned, ClusterEvent.writeErr w j :: tr =>
    owned.contains (w, j) && cluster_valid_go (ed.set_error j) owned tr

/-- Protocol validity of a trace from the initial shared state. -/
def cluster_valid (ed : ExperimentData) (tr : List ClusterEvent) : Bool :=
  cluster_valid_go ed [] tr

/-! ## The append / remove / select interface, as invoked through
`ExperimentData` -/

/-- One structural edit performed through the `ExperimentData` interface. -/
inductive EDOp where
  | add (data : List Row)
  | addArrays (inp : List Row) (out : Option (List Row))
  | removeBottom (n : Nat)
  | select (idx : List Nat)
deriving Repr

/-- Apply one structural edit. -/
def apply_op (ed : ExperimentData) : EDOp → ExperimentData
  | EDOp.add data => ed.add data
  | EDOp.addArrays inp out => ed.add_numpy_arrays inp out
  | EDOp.removeBottom n => ed.remove_rows_bottom n
  | EDOp.select idx => ed.select idx

/-- A structural edit is valid when a supplied output array has one row per
input row (the shape contract of `add_numpy_arrays`). -/
def validOp : EDOp → Bool
  | EDOp.addArrays inp (some out) => out.length == inp.length
  | _ => true

/-- The index-alignment invariant: the input store, the output store and the
job ledger carry the same indices in the same order. -/
def aligned (ed : ExperimentData) : Prop :=
  ed.input_data.indices = ed.output_data.indices ∧
  ed.input_data.indices = ed.jobs.indices

/-- The fresh-index computation, as a function of the index list alone. -/
def idxNext (l : List Nat) : Nat := l.foldl (fun a x => Nat.max a (x + 1)) 0

/-- An error message "names" a value when the value's text occurs inside the
message. -/
def message_names_value (msg value : String) : Prop :=
  value.data <:+: msg.data

/-! ## Concrete fixtures (the spec's example scenario: one continuous input
`x0`, one output `y`, three rows) -/

/-- The domain of the spec's example scenario. -/
def dom0 : Domain := { schema := ["x0"] }

/-- An empty experiment dataset over `dom0`. -/
def ed0 : ExperimentData :=
  { domain := dom0
    input_data := { cols := 1, rows := [] }
    output_data := { cols := 1, rows := [] }
    jobs := { jobs := [] }
    filename := "doe" }

/-- Three OPEN jobs with inputs `x0 = [-5, 0, 5]`. -/
def edW : ExperimentData := ed0.add [[Cell.num (-5)], [Cell.num 0], [Cell.num 5]]

/-- Two OPEN jobs with inputs `x0 = [-5, 0]`. -/
def edW2 : ExperimentData := ed0.add [[Cell.num (-5)], [Cell.num 0]]

/-- A dataset on which every job already reached a terminal status. -/
def edDone : ExperimentData :=
  { ed0 with
    input_data := { cols := 1, rows := [(0, [Cell.num 1]), (1, [Cell.num 2])] }
    output_data := { cols := 1, rows := [(0, [Cell.num 1]), (1, [Cell.str "ERROR"])] }
    jobs := { jobs := [(0, Status.finished), (1, Status.error)] } }

/-- An operation that raises exactly on job 1 and squares `x0` elsewhere. -/
def opFail1 : Operation := fun d =>
  if d.job_number = 1 then Except.error "boom"
  else
    match d.dict_input with
    | [Cell.num x] => Except.ok { d with dict_output := [Cell.num (x * x)] }
    | _ => Except.ok { d with dict_output := [Cell.num 0] }

/-- The design worker 0 writes back in the concrete cluster trace. -/
def d0fin : Design :=
  { dict_input := [Cell.num (-5)], dict_output := [Cell.num 25], job_number := 0 }

/-- A two-worker interleaving: both claim, then both write back. -/
def trC2 : List ClusterEvent :=
  [ClusterEvent.claim 0, ClusterEvent.claim 1,
   ClusterEvent.writeFin 0 d0fin, ClusterEvent.writeErr 1 1]

/-- A mixed sequence of structural edits. -/
def opsC5 : List EDOp :=
  [EDOp.add [[Cell.num 1]],
   EDOp.addArrays [[Cell.num 2]] (some [[Cell.num 5]]),
   EDOp.removeBottom 1,
   EDOp.select [0]]

/-- An empty shared location. -/
def diskEmpty : Disk :=
  { data_file := none, output_file := none, jobs_file := none, domain_file := none }

/-! ## Basic laws of the index-keyed tables -/

theorem lookupIdx_nil (j : Nat) : lookupIdx ([] : List (Nat × α)) j = none := rfl

theorem lookupIdx_cons (p : Nat × α) (l : List (Nat × α)) (j : Nat) :
    lookupIdx (p :: l) j = if p.1 = j then some p.2 else lookupIdx l j := by
  by_cases h : p.1 = j
  · simp [lookupIdx, List.find?_cons_of_pos, h]
  · have hb : (p.1 == j) = false := by simpa using h
    simp [lookupIdx, List.find?_cons_of_neg, hb, h]

theorem updateIdx_nil (i : Nat) (f : α → α) :
    updateIdx ([] : List (Nat × α)) i f = [] := rfl

theorem updateIdx_cons (p : Nat × α) (l : List (Nat × α)) (i : Nat) (f : α → α) :
    updateIdx (p :: l) i f =
      (if p.1 = i then (p.1, f p.2) else p) :: updateIdx l i f := rfl

theorem lookupIdx_updateIdx_self (l : List (Nat × α)) (i : Nat) (f : α → α) :
    lookupIdx (updateIdx l i f) i = (lookupIdx l i).map f := by
  induction l with
  | nil => rfl
  | cons p l ih =>
    rw [updateIdx_cons, lookupIdx_cons, lookupIdx_cons]
    by_cases h : p.1 = i
    · simp [h]
    · simp [h, ih]

theorem lookupIdx_updateIdx_ne (l : List (Nat × α)) (i j : Nat) (f : α → α)
    (h : j ≠ i) : lookupIdx (updateIdx l i f) j = lookupIdx l j := by
  induction l with
  | nil => rfl
  | cons p l ih =>
    rw [updateIdx_cons, lookupIdx_cons, lookupIdx_cons]
    by_cases hp : p.1 = i
    · have hpj : ¬ p.1 = j := fun hc => h (hc ▸ hp)
      simp [hp, hpj, ih, Ne.symm h]
    · by_cases hpj : p.1 = j
      · simp [hp, hpj, h]
      · simp [hp, hpj, ih]

theorem map_fst_updateIdx (l : List (Nat × α)) (i : Nat) (f : α → α) :
    (updateIdx l i f).map Prod.fst = l.map Prod.fst := by
  induction l with
  | nil => rfl
  | cons p l ih =>
    rw [updateIdx_cons]
    by_cases h : p.1 = i <;> simp [h, ih]

theorem lookupIdx_isSome_iff (l : List (Nat × α)) (j : Nat) :
    (lookupIdx l j).isSome ↔ j ∈ l.map Prod.fst := by
  induction l with
  | nil => simp [lookupIdx_nil]
  | cons p l ih =>
    rw [lookupIdx_cons]
    by_cases h : p.1 = j
    · simp [h]
    · simp only [List.map_cons, List.mem_cons, if_neg h, ih]
      constructor
      · exact Or.inr
      · rintro (hc | hc)
        · exact absurd hc.symm h
        · exact hc

theorem lookupIdx_mem_of_eq (l : List (Nat × α)) (j : Nat) (v : α)
    (h : lookupIdx l j = some v) : ∃ p ∈ l, p.1 = j ∧ p.2 = v := by
  induction l with
  | nil => cases h
  | cons a l ih =>
    rw [lookupIdx_cons] at h
    by_cases ha : a.1 = j
    · rw [if_pos ha] at h
      injection h with h
      exact ⟨a, List.mem_cons_self a l, ha, h⟩
    · rw [if_neg ha] at h
      obtain ⟨p, hp, h1, h2⟩ := ih h
      exact ⟨p, List.mem_cons_of_mem a hp, h1, h2⟩

theorem lookupIdx_eq_of_mem (l : List (Nat × α)) (p : Nat × α)
    (hnd : (l.map Prod.fst).Nodup) (hp : p ∈ l) : lookupIdx l p.1 = some p.2 := by
  induction l with
  | nil => cases hp
  | cons a l ih =>
    simp only [List.map_cons, List.nodup_cons] at hnd
    rw [lookupIdx_cons]
    rcases List.mem_cons.1 hp with hpa | hpl
    · subst hpa; simp
    · have ha : ¬ a.1 = p.1 := by
        intro hc
        exact hnd.1 (hc ▸ List.mem_map_of_mem Prod.fst hpl)
      rw [if_neg ha]
      exact ih hnd.2 hpl

namespace JobQueue

theorem mem_openIndices (q : JobQueue) (j : Nat) :
    j ∈ q.openIndices ↔ ∃ p ∈ q.jobs, p.1 = j ∧ p.2 = Status.opened := by
  simp only [openIndices, List.mem_filterMap]
  constructor
  · rintro ⟨p, hp, hval⟩
    by_cases h : p.2 = Status.opened
    · exact ⟨p, hp, by simpa [h] using hval, h⟩
    · simp [h] at hval
  · rintro ⟨p, hp, h1, h2⟩
    exact ⟨p, hp, by simp [h1, h2]⟩

theorem status_opened_mem_openIndices (q : JobQueue) (j : Nat)
    (h : q.status j = some Status.opened) : j ∈ q.openIndices :=
  (mem_openIndices q j).2 (lookupIdx_mem_of_eq q.jobs j Status.opened h)

theorem mem_openIndices_status (q : JobQueue) (j : Nat)
    (hnd : (q.jobs.map Prod.fst).Nodup)
    (h : j ∈ q.openIndices) : q.status j = some Status.opened := by
  obtain ⟨p, hp, h1, h2⟩ := (mem_openIndices q j).1 h
  have := lookupIdx_eq_of_mem q.jobs p hnd hp
  rw [h1, h2] at this
  exact this

theorem listMin?_eq_none_iff (l : List Nat) : listMin? l = none ↔ l = [] := by
  cases l with
  | nil => simp [listMin?]
  | cons x xs =>
    simp only [listMin?]
    cases listMin? xs <;> simp

theorem listMin?_mem (l : List Nat) : ∀ (m : Nat), listMin? l = some m → m ∈ l := by
  induction l with
  | nil => intro m h; cases h
  | cons x xs ih =>
    intro m h
    cases hm : listMin? xs with
    | none =>
      simp only [listMin?, hm] at h
      injection h with h
      exact h ▸ List.mem_cons_self x xs
    | some m' =>
      simp only [listMin?, hm] at h
      injection h with h
      subst h
      by_cases hle : x ≤ m'
      · rw [if_pos hle]
        exact List.mem_cons_self x xs
      · rw [if_neg hle]
        exact List.mem_cons_of_mem x (ih m' hm)

theorem listMin?_le (l : List Nat) : ∀ (m : Nat), listMin? l = some m →
    ∀ x ∈ l, m ≤ x := by
  induction l with
  | nil => intro m _ x hx; cases hx
  | cons y ys ih =>
    intro m h x hx
    cases hm : listMin? ys with
    | none =>
      have hnil : ys = [] := (listMin?_eq_none_iff ys).1 hm
      simp only [listMin?, hm] at h
      injection h with h
      subst hnil
      rcases List.mem_cons.1 hx with hxy | hxy
      · exact Nat.le_of_eq (h.symm ▸ hxy.symm)
      · cases hxy
    | some m' =>
      simp only [listMin?, hm] at h
      injection h with h
      have hmy : m ≤ y := by
        rw [← h]
        by_cases hle : y ≤ m'
        · rw [if_pos hle]
        · rw [if_neg hle]
          exact Nat.le_of_not_le hle
      have hmm' : m ≤ m' := by
        rw [← h]
        by_cases hle : y ≤ m'
        · rw [if_pos hle]; exact hle
        · rw [if_neg hle]
      rcases List.mem_cons.1 hx with hxy | hxy
      · exact hxy ▸ hmy
      · exact Nat.le_trans hmm' (ih m' hm x hxy)

theorem get_open_job_some (q : JobQueue) (j : Nat)
    (h : q.get_open_job = some j) :
    j ∈ q.openIndices ∧ ∀ x ∈ q.openIndices, j ≤ x :=
  ⟨listMin?_mem _ _ h, listMin?_le _ _ h⟩

theorem get_open_job_none_iff (q : JobQueue) :
    q.get_open_job = none ↔ q.openIndices = [] := listMin?_eq_none_iff _

theorem openIndices_cons (p : Nat × Status) (l : List (Nat × Status)) :
    JobQueue.openIndices ⟨p :: l⟩ =
      if p.2 = Status.opened then p.1 :: JobQueue.openIndices ⟨l⟩
      else JobQueue.openIndices ⟨l⟩ := by
  by_cases h : p.2 = Status.opened <;>
    simp [openIndices, List.filterMap_cons, h]

theorem countOpen_cons (p : Nat × Status) (l : List (Nat × Status)) :
    JobQueue.countOpen ⟨p :: l⟩ =
      (if p.2 = Status.opened then 1 else 0) + JobQueue.countOpen ⟨l⟩ := by
  by_cases h : p.2 = Status.opened <;>
    simp [countOpen, List.filter_cons, h, Nat.add_comm]

theorem countOpen_eq_zero_iff (q : JobQueue) :
    q.countOpen = 0 ↔ q.openIndices = [] := by
  obtain ⟨l⟩ := q
  induction l with
  | nil => simp [countOpen, openIndices]
  | cons p l ih =>
    rw [countOpen_cons, openIndices_cons]
    by_cases h : p.2 = Status.opened
    · simp [h]
    · simpa [h] using ih

theorem mem_openIndices_updateIdx (l : List (Nat × Status)) (i j : Nat)
    (f : Status → Status) (hf : ∀ s, f s ≠ Status.opened)
    (h : j ∈ JobQueue.openIndices ⟨updateIdx l i f⟩) :
    j ∈ JobQueue.openIndices ⟨l⟩ ∧ j ≠ i := by
  obtain ⟨p, hp, h1, h2⟩ := (mem_openIndices ⟨updateIdx l i f⟩ j).1 h
  obtain ⟨q, hq, him⟩ := List.mem_map.1 hp
  by_cases hqi : q.1 = i
  · rw [if_pos hqi] at him
    rw [← him] at h2
    exact absurd h2 (hf q.2)
  · rw [if_neg hqi] at him
    subst him
    exact ⟨(mem_openIndices ⟨l⟩ j).2 ⟨q, hq, h1, h2⟩, fun hc => hqi (h1 ▸ hc)⟩

theorem countOpen_updateIdx_le (l : List (Nat × Status)) (i : Nat)
    (f : Status → Status) (hf : ∀ s, f s ≠ Status.opened) :
    JobQueue.countOpen ⟨updateIdx l i f⟩ ≤ JobQueue.countOpen ⟨l⟩ := by
  induction l with
  | nil => exact Nat.le_refl _
  | cons p l ih =>
    rw [updateIdx_cons, countOpen_cons, countOpen_cons]
    by_cases hp : p.1 = i
    · rw [if_pos hp]
      simp only [hf p.2, if_false]
      omega
    · rw [if_neg hp]
      exact Nat.add_le_add_left ih _

theorem countOpen_updateIdx_lt (l : List (Nat × Status)) (i : Nat)
    (f : Status → Status) (hf : ∀ s, f s ≠ Status.opened)
    (hmem : i ∈ JobQueue.openIndices ⟨l⟩) :
    JobQueue.countOpen ⟨updateIdx l i f⟩ < JobQueue.countOpen ⟨l⟩ := by
  induction l with
  | nil => cases hmem
  | cons p l ih =>
    rw [updateIdx_cons, countOpen_cons, countOpen_cons]
    rw [openIndices_cons] at hmem
    by_cases hp : p.1 = i
    · rw [if_pos hp]
      simp only [hf p.2, if_false]
      by_cases ho : p.2 = Status.opened
      · rw [if_pos ho, Nat.zero_add]
        have := countOpen_updateIdx_le l i f hf
        omega
      · rw [if_neg ho, Nat.zero_add, Nat.zero_add]
        rw [if_neg ho] at hmem
        exact ih hmem
    · rw [if_neg hp]
      have hmem' : i ∈ JobQueue.openIndices ⟨l⟩ := by
        by_cases ho : p.2 = Status.opened
        · rw [if_pos ho] at hmem
          rcases List.mem_cons.1 hmem with hc | hc
          · exact absurd (hc ▸ hp) (fun hne => hne rfl)
          · exact hc
        · rwa [if_neg ho] at hmem
      exact Nat.add_lt_add_left (ih hmem') _

end JobQueue

/-! ## Frame lemmas for the per-job transitions -/

namespace JobQueue

theorem status_mark_as_in_progress_ne (q : JobQueue) (i j : Nat) (h : j ≠ i) :
    (q.mark_as_in_progress i).status j = q.status j :=
  lookupIdx_updateIdx_ne q.jobs i j (fun _ => Status.inProgress) h

theorem status_mark_as_in_progress_self (q : JobQueue) (i : Nat) :
    (q.mark_as_in_progress i).status i =
      (q.status i).map (fun _ => Status.inProgress) :=
  lookupIdx_updateIdx_self q.jobs i (fun _ => Status.inProgress)

theorem status_mark_as_finished_ne (q : JobQueue) (i j : Nat) (h : j ≠ i) :
    (q.mark_as_finished i).status j = q.status j :=
  lookupIdx_updateIdx_ne q.jobs i j
    (fun s => if s = Status.error then s else Status.finished) h

theorem status_mark_as_finished_self (q : JobQueue) (i : Nat) :
    (q.mark_as_finished i).status i =
      (q.status i).map (fun s => if s = Status.error then s else Status.finished) :=
  lookupIdx_updateIdx_self q.jobs i
    (fun s => if s = Status.error then s else Status.finished)

theorem status_mark_as_error_ne (q : JobQueue) (i j : Nat) (h : j ≠ i) :
    (q.mark_as_error i).status j = q.status j :=
  lookupIdx_updateIdx_ne q.jobs i j (fun _ => Status.error) h

theorem status_mark_as_error_self (q : JobQueue) (i : Nat) :
    (q.mark_as_error i).status i = (q.status i).map (fun _ => Status.error) :=
  lookupIdx_updateIdx_self q.jobs i (fun _ => Status.error)

theorem finish_fun_ne_opened :
    ∀ s : Status, (if s = Status.error then s else Status.finished) ≠ Status.opened := by
  intro s
  cases s <;> simp

theorem mem_open_mark_as_in_progress (q : JobQueue) (i j : Nat)
    (h : j ∈ (q.mark_as_in_progress i).openIndices) :
    j ∈ q.openIndices ∧ j ≠ i :=
  mem_openIndices_updateIdx q.jobs i j _ (fun _ => by simp) h

theorem mem_open_mark_as_finished (q : JobQueue) (i j : Nat)
    (h : j ∈ (q.mark_as_finished i).openIndices) :
    j ∈ q.openIndices ∧ j ≠ i :=
  mem_openIndices_updateIdx q.jobs i j _ finish_fun_ne_opened h

theorem mem_open_mark_as_error (q : JobQueue) (i j : Nat)
    (h : j ∈ (q.mark_as_error i).openIndices) :
    j ∈ q.openIndices ∧ j ≠ i :=
  mem_openIndices_updateIdx q.jobs i j _ (fun _ => by simp) h

theorem countOpen_mark_as_in_progress_lt (q : JobQueue) (i : Nat)
    (h : i ∈ q.openIndices) :
    (q.mark_as_in_progress i).countOpen < q.countOpen :=
  countOpen_updateIdx_lt q.jobs i _ (fun _ => by simp) h

theorem countOpen_mark_as_finished_le (q : JobQueue) (i : Nat) :
    (q.mark_as_finished i).countOpen ≤ q.countOpen :=
  countOpen_updateIdx_le q.jobs i _ finish_fun_ne_opened

theorem countOpen_mark_as_error_le (q : JobQueue) (i : Nat) :
    (q.mark_as_error i).countOpen ≤ q.countOpen :=
  countOpen_updateIdx_le q.jobs i _ (fun _ => by simp)

theorem indices_mark_as_in_progress (q : JobQueue) (i : Nat) :
    (q.mark_as_in_progress i).indices = q.indices :=
  map_fst_updateIdx q.jobs i (fun _ => Status.inProgress)

theorem indices_mark_as_finished (q : JobQueue) (i : Nat) :
    (q.mark_as_finished i).indices = q.indices :=
  map_fst_updateIdx q.jobs i
    (fun s => if s = Status.error then s else Status.finished)

theorem indices_mark_as_error (q : JobQueue) (i : Nat) :
    (q.mark_as_error i).indices = q.indices :=
  map_fst_updateIdx q.jobs i (fun _ => Status.error)

end JobQueue

namespace DataStore

theorem getRow_set_data_ne (d : DataStore) (i j : Nat) (v : Cell)
    (c : Option Nat) (h : j ≠ i) :
    (d.set_data i v c).getRow j = d.getRow j := by
  simp only [DataStore.set_data, DataStore.getRow]
  exact lookupIdx_updateIdx_ne d.rows i j _ h

theorem getRow_set_data_broadcast (d : DataStore) (i : Nat) (v : Cell) :
    (d.set_data i v none).getRow i =
      (d.getRow i).map (fun r => r.map (fun _ => v)) :=
  lookupIdx_updateIdx_self d.rows i _

theorem indices_set_data (d : DataStore) (i : Nat) (v : Cell) (c : Option Nat) :
    (d.set_data i v c).indices = d.indices := by
  simp only [DataStore.set_data, DataStore.indices]
  exact map_fst_updateIdx d.rows i _

end DataStore

namespace ExperimentData

theorem output_foldl_set_data_ne (k j : Nat) (h : j ≠ k) :
    ∀ (cells : List (Nat × Cell)) (store : DataStore),
      (cells.foldl (fun s p => s.set_data k p.2 (some p.1)) store).getRow j =
        store.getRow j := by
  intro cells
  induction cells with
  | nil => intro store; rfl
  | cons c cs ih =>
    intro store
    rw [List.foldl_cons, ih, DataStore.getRow_set_data_ne _ _ _ _ _ h]

theorem output_foldl_set_data_indices (k : Nat) :
    ∀ (cells : List (Nat × Cell)) (store : DataStore),
      (cells.foldl (fun s p => s.set_data k p.2 (some p.1)) store).indices =
        store.indices := by
  intro cells
  induction cells with
  | nil => intro store; rfl
  | cons c cs ih =>
    intro store
    rw [List.foldl_cons, ih, DataStore.indices_set_data]

/-- `set_design` only touches the job number of the design: the ledger
status of every other index is unchanged. -/
theorem status_set_design_ne (ed : ExperimentData) (d : Design) (j : Nat)
    (h : j ≠ d.job_number) :
    (ed.set_design d).jobs.status j = ed.jobs.status j :=
  JobQueue.status_mark_as_finished_ne ed.jobs _ j h

theorem status_set_design_self (ed : ExperimentData) (d : Design) :
    (ed.set_design d).jobs.status d.job_number =
      (ed.jobs.status d.job_number).map
        (fun s => if s = Status.error then s else Status.finished) :=
  JobQueue.status_mark_as_finished_self ed.jobs _

theorem getRow_set_design_ne (ed : ExperimentData) (d : Design) (j : Nat)
    (h : j ≠ d.job_number) :
    (ed.set_design d).output_data.getRow j = ed.output_data.getRow j :=
  output_foldl_set_data_ne d.job_number j h d.dict_output.enum ed.output_data

/-- After `set_error i`, index `i` is ERROR whenever it is present: the
ERROR write sticks because `mark_as_finished` never leaves ERROR. -/
theorem status_set_error_self (ed : ExperimentData) (i : Nat) :
    (ed.set_error i).jobs.status i =
      (ed.jobs.status i).map (fun _ => Status.error) := by
  show ((ed.jobs.mark_as_error i).mark_as_finished i).status i = _
  rw [JobQueue.status_mark_as_finished_self, JobQueue.status_mark_as_error_self]
  cases ed.jobs.status i <;> simp

theorem status_set_error_ne (ed : ExperimentData) (i j : Nat) (h : j ≠ i) :
    (ed.set_error i).jobs.status j = ed.jobs.status j := by
  show ((ed.jobs.mark_as_error i).mark_as_finished i).status j = _
  rw [JobQueue.status_mark_as_finished_ne _ _ _ h,
    JobQueue.status_mark_as_error_ne _ _ _ h]

theorem getRow_set_error_self (ed : ExperimentData) (i : Nat) :
    (ed.set_error i).output_data.getRow i =
      (ed.output_data.getRow i).map (fun r => r.map (fun _ => Cell.str "ERROR")) :=
  DataStore.getRow_set_data_broadcast ed.output_data i _

theorem getRow_set_error_ne (ed : ExperimentData) (i j : Nat) (h : j ≠ i) :
    (ed.set_error i).output_data.getRow j = ed.output_data.getRow j :=
  DataStore.getRow_set_data_ne ed.output_data i j _ none h

/-- Neither writeback ever re-opens a job: an index OPEN after `set_design`
was OPEN before and differs from the written job number. -/
theorem mem_open_set_design (ed : ExperimentData) (d : Design) (j : Nat)
    (h : j ∈ (ed.set_design d).jobs.openIndices) :
    j ∈ ed.jobs.openIndices ∧ j ≠ d.job_number :=
  JobQueue.mem_open_mark_as_finished ed.jobs _ j h

theorem mem_open_set_error (ed : ExperimentData) (i j : Nat)
    (h : j ∈ (ed.set_error i).jobs.openIndices) :
    j ∈ ed.jobs.openIndices ∧ j ≠ i := by
  have h1 := JobQueue.mem_open_mark_as_finished (ed.jobs.mark_as_error i) i j h
  have h2 := JobQueue.mem_open_mark_as_error ed.jobs i j h1.1
  exact ⟨h2.1, h1.2⟩

theorem countOpen_set_design_le (ed : ExperimentData) (d : Design) :
    (ed.set_design d).jobs.countOpen ≤ ed.jobs.countOpen :=
  JobQueue.countOpen_mark_as_finished_le ed.jobs _

theorem countOpen_set_error_le (ed : ExperimentData) (i : Nat) :
    (ed.set_error i).jobs.countOpen ≤ ed.jobs.countOpen :=
  Nat.le_trans (JobQueue.countOpen_mark_as_finished_le _ i)
    (JobQueue.countOpen_mark_as_error_le ed.jobs i)

theorem indices_set_design (ed : ExperimentData) (d : Design) :
    (ed.set_design d).jobs.indices = ed.jobs.indices :=
  JobQueue.indices_mark_as_finished ed.jobs _

theorem indices_set_error (ed : ExperimentData) (i : Nat) :
    (ed.set_error i).jobs.indices = ed.jobs.indices := by
  show ((ed.jobs.mark_as_error i).mark_as_finished i).indices = _
  rw [JobQueue.indices_mark_as_finished, JobQueue.indices_mark_as_error]

/-! ## The claim step -/

theorem access_open_job_data_none_iff (ed : ExperimentData) :
    ed.access_open_job_data = none ↔ ed.jobs.openIndices = [] := by
  rw [access_open_job_data]
  cases hg : ed.jobs.get_open_job with
  | none => simpa using (JobQueue.get_open_job_none_iff ed.jobs).1 hg
  | some j =>
    simp only []
    constructor
    · intro h; cases h
    · intro h
      rw [(JobQueue.get_open_job_none_iff ed.jobs).2 h] at hg
      cases hg

/-- What a successful claim hands out: the claimed job number is the least
OPEN index, the claimed state only marks that index IN_PROGRESS, and the
design's job number is the claimed index. -/
theorem access_open_job_data_some (ed ed1 : ExperimentData) (design : Design)
    (h : ed.access_open_job_data = some (ed1, design)) :
    design.job_number ∈ ed.jobs.openIndices ∧
    (∀ x ∈ ed.jobs.openIndices, design.job_number ≤ x) ∧
    ed1 = { ed with jobs := ed.jobs.mark_as_in_progress design.job_number } := by
  rw [access_open_job_data] at h
  cases hg : ed.jobs.get_open_job with
  | none => rw [hg] at h; cases h
  | some j =>
    rw [hg] at h
    simp only [Option.some.injEq, Prod.mk.injEq] at h
    have hjn : design.job_number = j := by
      rw [← h.2]
      rfl
    obtain ⟨hmem, hle⟩ := JobQueue.get_open_job_some ed.jobs j hg
    exact ⟨hjn ▸ hmem, fun x hx => hjn ▸ hle x hx, by rw [← h.1, hjn]⟩

theorem run_sequential_go_of_access_none (op : Operation) (ed : ExperimentData)
    (h : ed.access_open_job_data = none) :
    ∀ fuel, run_sequential_go fuel op ed = (ed, []) := by
  intro fuel
  cases fuel with
  | zero => rfl
  | succ f => simp [run_sequential_go, h]

/-- Open indices only disappear across one full loop iteration (claim plus
success writeback), and the claimed index is gone. -/
theorem mem_open_iter_ok (ed ed1 : ExperimentData) (design : Design) (r : Design)
    (h : ed.access_open_job_data = some (ed1, design)) (i : Nat)
    (hi : i ∈ (ed1.set_design r).jobs.openIndices) :
    i ∈ ed.jobs.openIndices ∧ i ≠ design.job_number := by
  obtain ⟨_, _, hed1⟩ := access_open_job_data_some ed ed1 design h
  have h1 := mem_open_set_design ed1 r i hi
  rw [hed1] at h1
  have h2 := JobQueue.mem_open_mark_as_in_progress ed.jobs design.job_number i h1.1
  exact h2

/-- The same for the failure writeback. -/
theorem mem_open_iter_err (ed ed1 : ExperimentData) (design : Design)
    (h : ed.access_open_job_data = some (ed1, design)) (i : Nat)
    (hi : i ∈ (ed1.set_error design.job_number).jobs.openIndices) :
    i ∈ ed.jobs.openIndices ∧ i ≠ design.job_number := by
  obtain ⟨_, _, hed1⟩ := access_open_job_data_some ed ed1 design h
  have h1 := mem_open_set_error ed1 design.job_number i hi
  rw [hed1] at h1
  exact JobQueue.mem_open_mark_as_in_progress ed.jobs design.job_number i h1.1

/-- One full loop iteration strictly decreases the number of OPEN jobs. -/
theorem countOpen_iter_ok_lt (ed ed1 : ExperimentData) (design : Design)
    (r : Design) (h : ed.access_open_job_data = some (ed1, design)) :
    (ed1.set_design r).jobs.countOpen < ed.jobs.countOpen := by
  obtain ⟨hmem, _, hed1⟩ := access_open_job_data_some ed ed1 design h
  refine Nat.lt_of_le_of_lt (countOpen_set_design_le ed1 r) ?_
  rw [hed1]
  exact JobQueue.countOpen_mark_as_in_progress_lt ed.jobs design.job_number hmem

theorem countOpen_iter_err_lt (ed ed1 : ExperimentData) (design : Design)
    (h : ed.access_open_job_data = some (ed1, design)) :
    (ed1.set_error design.job_number).jobs.countOpen < ed.jobs.countOpen := by
  obtain ⟨hmem, _, hed1⟩ := access_open_job_data_some ed ed1 design h
  refine Nat.lt_of_le_of_lt (countOpen_set_error_le ed1 design.job_number) ?_
  rw [hed1]
  exact JobQueue.countOpen_mark_as_in_progress_lt ed.jobs design.job_number hmem

/-! ## Sequential run: drain and processing order -/

/-- With enough fuel the sequential loop drains every OPEN job, so it stops
exactly where `access_open_job_data` signals `NoOpenJobsError`. -/
theorem run_sequential_go_drains (op : Operation) :
    ∀ (fuel : Nat) (ed : ExperimentData), ed.jobs.countOpen < fuel →
      (run_sequential_go fuel op ed).1.jobs.openIndices = [] := by
  intro fuel
  induction fuel with
  | zero => intro ed hc; cases hc
  | succ f ih =>
    intro ed hc
    cases ha : ed.access_open_job_data with
    | none =>
      rw [run_sequential_go_of_access_none op ed ha]
      exact (access_open_job_data_none_iff ed).1 ha
    | some pr =>
      obtain ⟨ed1, design⟩ := pr
      cases hop : op design with
      | ok r =>
        have hlt := countOpen_iter_ok_lt ed ed1 design r ha
        have := ih (ed1.set_design r) (by omega)
        simpa [run_sequential_go, ha, hop] using this
      | error e =>
        have hlt := countOpen_iter_err_lt ed ed1 design ha
        have := ih (ed1.set_error design.job_number) (by omega)
        simpa [run_sequential_go, ha, hop] using this

/-- Every index the loop processes exceeds any lower bound below all OPEN
indices of the starting state. -/
theorem run_sequential_go_trace_lb (op : Operation) :
    ∀ (fuel : Nat) (ed : ExperimentData) (b : Nat),
      (∀ i ∈ ed.jobs.openIndices, b < i) →
      ∀ x ∈ (run_sequential_go fuel op ed).2, b < x := by
  intro fuel
  induction fuel with
  | zero => intro ed b _ x hx; cases hx
  | succ f ih =>
    intro ed b hb x hx
    cases ha : ed.access_open_job_data with
    | none =>
      rw [run_sequential_go_of_access_none op ed ha] at hx
      cases hx
    | some pr =>
      obtain ⟨ed1, design⟩ := pr
      obtain ⟨hmem, hle, hed1⟩ := access_open_job_data_some ed ed1 design ha
      cases hop : op design with
      | ok r =>
        simp only [run_sequential_go, ha, hop] at hx
        rcases List.mem_cons.1 hx with hx1 | hx1
        · exact hx1 ▸ hb design.job_number hmem
        · refine ih (ed1.set_design r) b ?_ x hx1
          intro i hi
          exact hb i (mem_open_iter_ok ed ed1 design r ha i hi).1
      | error e =>
        simp only [run_sequential_go, ha, hop] at hx
        rcases List.mem_cons.1 hx with hx1 | hx1
        · exact hx1 ▸ hb design.job_number hmem
        · refine ih (ed1.set_error design.job_number) b ?_ x hx1
          intro i hi
          exact hb i (mem_open_iter_err ed ed1 design ha i hi).1

/-- The processed indices of the sequential loop are strictly increasing. -/
theorem run_sequential_go_trace_sorted (op : Operation) :
    ∀ (fuel : Nat) (ed : ExperimentData),
      List.Pairwise (· < ·) (run_sequential_go fuel op ed).2 := by
  intro fuel
  induction fuel with
  | zero => intro ed; exact List.Pairwise.nil
  | succ f ih =>
    intro ed
    cases ha : ed.access_open_job_data with
    | none =>
      rw [run_sequential_go_of_access_none op ed ha]
      exact List.Pairwise.nil
    | some pr =>
      obtain ⟨ed1, design⟩ := pr
      obtain ⟨hmem, hle, hed1⟩ := access_open_job_data_some ed ed1 design ha
      cases hop : op design with
      | ok r =>
        simp only [run_sequential_go, ha, hop]
        refine List.pairwise_cons.2 ⟨?_, ih (ed1.set_design r)⟩
        intro x hx
        refine run_sequential_go_trace_lb op f (ed1.set_design r)
          design.job_number ?_ x hx
        intro i hi
        obtain ⟨hiopen, hine⟩ := mem_open_iter_ok ed ed1 design r ha i hi
        exact Nat.lt_of_le_of_ne (hle i hiopen) (fun hc => hine hc.symm)
      | error e =>
        simp only [run_sequential_go, ha, hop]
        refine List.pairwise_cons.2 ⟨?_, ih (ed1.set_error design.job_number)⟩
        intro x hx
        refine run_sequential_go_trace_lb op f (ed1.set_error design.job_number)
          design.job_number ?_ x hx
        intro i hi
        obtain ⟨hiopen, hine⟩ := mem_open_iter_err ed ed1 design ha i hi
        exact Nat.lt_of_le_of_ne (hle i hiopen) (fun hc => hine hc.symm)

theorem status_of_all_opened (q : JobQueue)
    (hall : ∀ p ∈ q.jobs, p.2 = Status.opened) (j : Nat)
    (hj : j ∈ q.indices) : q.status j = some Status.opened := by
  have hs : (q.status j).isSome := (lookupIdx_isSome_iff q.jobs j).2 hj
  cases hv : q.status j with
  | none => rw [hv] at hs; cases hs
  | some v =>
    obtain ⟨p, hp, h1, h2⟩ := lookupIdx_mem_of_eq q.jobs j v hv
    rw [← h2, hall p hp]

/-- Failure isolation through the sequential loop: an operation that raises
exactly on job `k` and succeeds (at the same index) on every other job
leaves every OPEN job FINISHED, except `k`, which ends ERROR with the
`'ERROR'` marker broadcast over its output row; rows that were not OPEN are
untouched. -/
theorem run_sequential_go_isolation (op : Operation) (k : Nat)
    (hfail : ∀ d : Design, d.job_number = k → ∃ e, op d = Except.error e)
    (hok : ∀ d : Design, d.job_number ≠ k →
      ∃ r, op d = Except.ok r ∧ r.job_number = d.job_number) :
    ∀ (fuel : Nat) (st : ExperimentData), st.jobs.indices.Nodup →
      st.jobs.countOpen < fuel →
      (∀ j, st.jobs.status j = some Status.opened →
        (run_sequential_go fuel op st).1.jobs.status j =
          some (if j = k then Status.error else Status.finished)) ∧
      (∀ j, st.jobs.status j ≠ some Status.opened →
        (run_sequential_go fuel op st).1.jobs.status j = st.jobs.status j ∧
        (run_sequential_go fuel op st).1.output_data.getRow j =
          st.output_data.getRow j) ∧
      (st.jobs.status k = some Status.opened →
        (run_sequential_go fuel op st).1.output_data.getRow k =
          (st.output_data.getRow k).map
            (fun r => r.map (fun _ => Cell.str "ERROR"))) := by
  intro fuel
  induction fuel with
  | zero => intro st _ hc; cases hc
  | succ f ih =>
    intro st hnd hc
    cases ha : st.access_open_job_data with
    | none =>
      rw [run_sequential_go_of_access_none op st ha (f + 1)]
      have hempty := (access_open_job_data_none_iff st).1 ha
      refine ⟨?_, ?_, ?_⟩
      · intro j hj
        have := JobQueue.status_opened_mem_openIndices st.jobs j hj
        rw [hempty] at this
        cases this
      · intro j _
        exact ⟨rfl, rfl⟩
      · intro hk
        have := JobQueue.status_opened_mem_openIndices st.jobs k hk
        rw [hempty] at this
        cases this
    | some pr =>
      obtain ⟨ed1, design⟩ := pr
      obtain ⟨hmem, hle, hed1⟩ := access_open_job_data_some st ed1 design ha
      subst hed1
      have hstj0 : st.jobs.status design.job_number = some Status.opened :=
        JobQueue.mem_openIndices_status st.jobs design.job_number hnd hmem
      by_cases hk0 : design.job_number = k
      · -- the failing job is claimed: op raises, set_error runs
        obtain ⟨e, hop⟩ := hfail design hk0
        have hrun : run_sequential_go (f + 1) op st =
            ((run_sequential_go f op
                (ExperimentData.set_error
                  { st with jobs := st.jobs.mark_as_in_progress design.job_number }
                  design.job_number)).1,
              design.job_number ::
                (run_sequential_go f op
                  (ExperimentData.set_error
                    { st with jobs := st.jobs.mark_as_in_progress design.job_number }
                    design.job_number)).2) := by
          simp [run_sequential_go, ha, hop]
        have hnd2 : (ExperimentData.set_error
            { st with jobs := st.jobs.mark_as_in_progress design.job_number }
            design.job_number).jobs.indices.Nodup := by
          rw [indices_set_error]
          show (st.jobs.mark_as_in_progress design.job_number).indices.Nodup
          rw [JobQueue.indices_mark_as_in_progress]
          exact hnd
        have hc2 : (ExperimentData.set_error
            { st with jobs := st.jobs.mark_as_in_progress design.job_number }
            design.job_number).jobs.countOpen < f := by
          have := countOpen_iter_err_lt st _ design ha
          omega
        obtain ⟨IH1, IH2, IH3⟩ := ih _ hnd2 hc2
        have hst2k : (ExperimentData.set_error
            { st with jobs := st.jobs.mark_as_in_progress design.job_number }
            design.job_number).jobs.status k = some Status.error := by
          rw [← hk0, status_set_error_self]
          show ((st.jobs.mark_as_in_progress design.job_number).status
            design.job_number).map _ = _
          rw [JobQueue.status_mark_as_in_progress_self, hstj0]
          rfl
        have hst2ne : ∀ j, j ≠ design.job_number →
            (ExperimentData.set_error
              { st with jobs := st.jobs.mark_as_in_progress design.job_number }
              design.job_number).jobs.status j = st.jobs.status j := by
          intro j hj
          rw [status_set_error_ne _ _ _ hj]
          exact JobQueue.status_mark_as_in_progress_ne st.jobs _ j hj
        have hrow2k : (ExperimentData.set_error
            { st with jobs := st.jobs.mark_as_in_progress design.job_number }
            design.job_number).output_data.getRow k =
            (st.output_data.getRow k).map
              (fun r => r.map (fun _ => Cell.str "ERROR")) := by
          rw [← hk0, getRow_set_error_self]
        have hrow2ne : ∀ j, j ≠ design.job_number →
            (ExperimentData.set_error
              { st with jobs := st.jobs.mark_as_in_progress design.job_number }
              design.job_number).output_data.getRow j =
              st.output_data.getRow j := by
          intro j hj
          exact getRow_set_error_ne _ _ _ hj
        rw [hrun]
        refine ⟨?_, ?_, ?_⟩
        · intro j hj
          by_cases hjk : j = k
          · have hj2 : (ExperimentData.set_error
                { st with jobs := st.jobs.mark_as_in_progress design.job_number }
                design.job_number).jobs.status j = some Status.error := by
              rw [hjk]
              exact hst2k
            have := IH2 j (by rw [hj2]; intro hcon; cases hcon)
            rw [this.1, hj2, if_pos hjk]
          · have hjn : j ≠ design.job_number := fun hcon => hjk (hcon ▸ hk0)
            have := IH1 j (by rw [hst2ne j hjn]; exact hj)
            rw [this]
        · intro j hj
          have hjn : j ≠ design.job_number := by
            intro hcon
            exact hj (hcon ▸ hstj0)
          have := IH2 j (by rw [hst2ne j hjn]; exact hj)
          exact ⟨by rw [this.1, hst2ne j hjn], by rw [this.2, hrow2ne j hjn]⟩
        · intro _
          have := IH2 k (by rw [hst2k]; intro hcon; cases hcon)
          rw [this.2, hrow2k]
      · -- a succeeding job is claimed: set_design runs
        obtain ⟨r, hop, hrj⟩ := hok design hk0
        have hrun : run_sequential_go (f + 1) op st =
            ((run_sequential_go f op
                (ExperimentData.set_design
                  { st with jobs := st.jobs.mark_as_in_progress design.job_number }
                  r)).1,
              design.job_number ::
                (run_sequential_go f op
                  (ExperimentData.set_design
                    { st with jobs := st.jobs.mark_as_in_progress design.job_number }
                    r)).2) := by
          simp [run_sequential_go, ha, hop]
        have hnd2 : (ExperimentData.set_design
            { st with jobs := st.jobs.mark_as_in_progress design.job_number }
            r).jobs.indices.Nodup := by
          rw [indices_set_design]
          show (st.jobs.mark_as_in_progress design.job_number).indices.Nodup
          rw [JobQueue.indices_mark_as_in_progress]
          exact hnd
        have hc2 : (ExperimentData.set_design
            { st with jobs := st.jobs.mark_as_in_progress design.job_number }
            r).jobs.countOpen < f := by
          have := countOpen_iter_ok_lt st _ design r ha
          omega
        obtain ⟨IH1, IH2, IH3⟩ := ih _ hnd2 hc2
        have hst2j0 : (ExperimentData.set_design
            { st with jobs := st.jobs.mark_as_in_progress design.job_number }
            r).jobs.status design.job_number = some Status.finished := by
          rw [← hrj, status_set_design_self]
          rw [hrj]
          show ((st.jobs.mark_as_in_progress design.job_number).status
            design.job_number).map _ = _
          rw [JobQueue.status_mark_as_in_progress_self, hstj0]
          rfl
        have hst2ne : ∀ j, j ≠ design.job_number →
            (ExperimentData.set_design
              { st with jobs := st.jobs.mark_as_in_progress design.job_number }
              r).jobs.status j = st.jobs.status j := by
          intro j hj
          rw [status_set_design_ne _ _ _ (hrj ▸ hj)]
          exact JobQueue.status_mark_as_in_progress_ne st.jobs _ j hj
        have hrow2ne : ∀ j, j ≠ design.job_number →
            (ExperimentData.set_design
              { st with jobs := st.jobs.mark_as_in_progress design.job_number }
              r).output_data.getRow j = st.output_data.getRow j := by
          intro j hj
          exact getRow_set_design_ne _ _ _ (hrj ▸ hj)
        rw [hrun]
        refine ⟨?_, ?_, ?_⟩
        · intro j hj
          by_cases hjn : j = design.job_number
          · have hj2 : (ExperimentData.set_design
                { st with jobs := st.jobs.mark_as_in_progress design.job_number }
                r).jobs.status j = some Status.finished := by
              rw [hjn]
              exact hst2j0
            have := IH2 j (by rw [hj2]; intro hcon; cases hcon)
            have hjk : ¬ j = k := by rw [hjn]; exact hk0
            rw [this.1, hj2, if_neg hjk]
          · have := IH1 j (by rw [hst2ne j hjn]; exact hj)
            rw [this]
        · intro j hj
          have hjn : j ≠ design.job_number := by
            intro hcon
            exact hj (hcon ▸ hstj0)
          have := IH2 j (by rw [hst2ne j hjn]; exact hj)
          exact ⟨by rw [this.1, hst2ne j hjn], by rw [this.2, hrow2ne j hjn]⟩
        · intro hk
          have hkn : k ≠ design.job_number := fun hcon => hk0 hcon.symm
          have := IH3 (by rw [hst2ne k hkn]; exact hk)
          rw [this, hrow2ne k hkn]

theorem openIndices_nil_of_terminal (q : JobQueue)
    (h : ∀ p ∈ q.jobs, p.2 = Status.finished ∨ p.2 = Status.error) :
    q.openIndices = [] := by
  rw [JobQueue.openIndices, List.filterMap_eq_nil_iff]
  intro p hp
  rcases h p hp with h1 | h1 <;> simp [h1]

/-- C4: in sequential mode the loop repeatedly claims the lowest-index OPEN
job, writes FINISHED on success and ERROR on exception, and terminates
exactly when the claim fails with `NoOpenJobsError` (no OPEN job is left
behind); the processed job indices form a strictly increasing sequence (in
particular so with no failures). -/
theorem seq_claim_order (op : Operation) (ed : ExperimentData) :
    (run_sequential op ed).1.jobs.get_open_job = none ∧
    List.Pairwise (· < ·) (run_sequential op ed).2 := by
  constructor
  · rw [JobQueue.get_open_job_none_iff]
    exact run_sequential_go_drains op (ed.jobs.countOpen + 1) ed (Nat.lt_succ_self _)
  · exact run_sequential_go_trace_sorted op (ed.jobs.countOpen + 1) ed

/-- C6: when every job already has a terminal status (FINISHED or ERROR),
running again claims nothing, performs zero evaluations (empty processed
trace) and leaves the dataset unchanged. -/
theorem run_idempotent_when_done (op : Operation) (ed : ExperimentData)
    (h : ∀ p ∈ ed.jobs.jobs, p.2 = Status.finished ∨ p.2 = Status.error) :
    run_sequential op ed = (ed, []) := by
  have ha : ed.access_open_job_data = none :=
    (access_open_job_data_none_iff ed).2 (openIndices_nil_of_terminal ed.jobs h)
  exact run_sequential_go_of_access_none op ed ha _

/-- Witness for C6 on a concrete finished/errored dataset. -/
theorem run_idempotent_when_done_witness :
    run_sequential opFail1 edDone = (edDone, []) :=
  run_idempotent_when_done opFail1 edDone (by decide)

/-- C1: if the operation raises exactly for job `k` (and succeeds, at the
same index, on every other job) then a sequential run over all-OPEN jobs
leaves `k` with ledger status ERROR and the `'ERROR'` sentinel across its
output row, while every other job ends FINISHED. -/
theorem seq_failure_isolation (op : Operation) (ed : ExperimentData) (k : Nat)
    (hnd : ed.jobs.indices.Nodup)
    (hall : ∀ p ∈ ed.jobs.jobs, p.2 = Status.opened)
    (hk : k ∈ ed.jobs.indices)
    (hfail : ∀ d : Design, d.job_number = k → ∃ e, op d = Except.error e)
    (hok : ∀ d : Design, d.job_number ≠ k →
      ∃ r, op d = Except.ok r ∧ r.job_number = d.job_number) :
    (run_sequential op ed).1.jobs.status k = some Status.error ∧
    (run_sequential op ed).1.output_data.getRow k =
      (ed.output_data.getRow k).map (fun r => r.map (fun _ => Cell.str "ERROR")) ∧
    ∀ j ∈ ed.jobs.indices, j ≠ k →
      (run_sequential op ed).1.jobs.status j = some Status.finished := by
  obtain ⟨IH1, IH2, IH3⟩ := run_sequential_go_isolation op k hfail hok
    (ed.jobs.countOpen + 1) ed hnd (Nat.lt_succ_self _)
  have hsk : ed.jobs.status k = some Status.opened :=
    status_of_all_opened ed.jobs hall k hk
  refine ⟨?_, IH3 hsk, ?_⟩
  · have := IH1 k hsk
    rw [if_pos rfl] at this
    exact this
  · intro j hj hjk
    have := IH1 j (status_of_all_opened ed.jobs hall j hj)
    rw [if_neg hjk] at this
    exact this

/-- Witness for C1: three OPEN jobs, the operation raising on job 1. -/
theorem seq_failure_isolation_witness :
    (run_sequential opFail1 edW).1.jobs.status 1 = some Status.error ∧
    (run_sequential opFail1 edW).1.output_data.getRow 1 =
      (edW.output_data.getRow 1).map (fun r => r.map (fun _ => Cell.str "ERROR")) ∧
    ∀ j ∈ edW.jobs.indices, j ≠ 1 →
      (run_sequential opFail1 edW).1.jobs.status j = some Status.finished :=
  seq_failure_isolation opFail1 edW 1 (by decide) (by decide) (by decide)
    (fun d hd => ⟨"boom", by simp [opFail1, hd]⟩)
    (fun d hd => by
      simp only [opFail1, if_neg hd]
      cases hi : d.dict_input with
      | nil => exact ⟨{ d with dict_output := [Cell.num 0] }, by rw [hi], rfl⟩
      | cons c cs =>
        cases c with
        | num x =>
          cases cs with
          | nil =>
            exact ⟨{ d with dict_output := [Cell.num (x * x)] }, by rw [hi], rfl⟩
          | cons c2 cs2 =>
            exact ⟨{ d with dict_output := [Cell.num 0] }, by rw [hi], rfl⟩
        | unset => exact ⟨{ d with dict_output := [Cell.num 0] }, by rw [hi], rfl⟩
        | str t => exact ⟨{ d with dict_output := [Cell.num 0] }, by rw [hi], rfl⟩)

/-- C7: storing an experiment dataset and loading it back yields identical
input table, output table, and ledger status at every index. -/
theorem store_from_file_roundtrip (ed : ExperimentData) (fn : String) :
    ∃ r, from_file_attempt ed.store fn = Except.ok r ∧
      r.input_data = ed.input_data ∧ r.output_data = ed.output_data ∧
      r.jobs = ed.jobs ∧ ∀ i, r.jobs.status i = ed.jobs.status i :=
  ⟨{ domain := ed.domain, input_data := ed.input_data,
     output_data := ed.output_data, jobs := ed.jobs, filename := fn },
    rfl, rfl, rfl, rfl, fun _ => rfl⟩

/-- C10: a non-callable operation argument fails with the `TypeError`
before any mode dispatch or claim, returning the dataset and shared state
unchanged. -/
theorem run_not_callable (ed : ExperimentData) (mode : String) (disk : Disk) :
    ed.run OpArg.notCallable mode disk =
      ⟨ed, disk, Except.error (RunError.typeError "operation must be a function.")⟩ :=
  rfl

/-- C3 demonstration at the failing input: with two OPEN jobs and the
operation raising on job 1, `_run_multiprocessing` propagates the worker
exception (re-raised by the pool's `starmap`) out of the run, so the
writeback pass never executes: job 0's computed result is discarded (its
output row still unset), job 1 is never marked ERROR, and both jobs are
left IN_PROGRESS. -/
theorem multiprocessing_failure_aborts_writeback :
    (run_multiprocessing opFail1 edW2).2 = Except.error "boom" ∧
    (run_multiprocessing opFail1 edW2).1.jobs.status 0 = some Status.inProgress ∧
    (run_multiprocessing opFail1 edW2).1.jobs.status 1 = some Status.inProgress ∧
    (run_multiprocessing opFail1 edW2).1.output_data.getRow 0 = some [Cell.unset] ∧
    (run_multiprocessing opFail1 edW2).1.output_data.getRow 1 = some [Cell.unset] :=
  ⟨rfl, rfl, rfl, rfl, rfl⟩

/-- Counterexample to C8 as stated: for the invalid mode `"banana"` the run
fails with the `ValueError`, but its message is the fixed string
`"Invalid parallelization mode specified."`, which does not name (contain)
the offending mode value. -/
theorem run_invalid_mode_counterexample :
    (ed0.run (OpArg.callable opFail1) "banana" diskEmpty).result =
      Except.error (RunError.valueError "Invalid parallelization mode specified.") ∧
    ¬ message_names_value "Invalid parallelization mode specified." "banana" := by
  constructor
  · rfl
  · show ¬ ("banana".data <:+: "Invalid parallelization mode specified.".data)
    decide

/-- C8 amended: a mode outside {sequential, parallel, cluster} (compared
case-insensitively) fails with the `ValueError` carrying the fixed message
`"Invalid parallelization mode specified."` — which does not name the
offending value — and performs no evaluations: the dataset and the shared
state are returned unchanged. -/
theorem run_invalid_mode (ed : ExperimentData) (opf : Operation) (mode : String)
    (disk : Disk)
    (h : str_lower mode ∉ (["sequential", "parallel", "cluster"] : List String)) :
    ed.run (OpArg.callable opf) mode disk =
      ⟨ed, disk,
        Except.error (RunError.valueError "Invalid parallelization mode specified.")⟩ := by
  simp only [List.mem_cons, List.not_mem_nil, or_false, not_or] at h
  simp [run, h.1, h.2.1, h.2.2]

/-- Witness for the amended C8 at the concrete mode `"banana"`. -/
theorem run_invalid_mode_witness :
    ed0.run (OpArg.callable opFail1) "banana" diskEmpty =
      ⟨ed0, diskEmpty,
        Except.error (RunError.valueError "Invalid parallelization mode specified.")⟩ :=
  run_invalid_mode ed0 opFail1 "banana" diskEmpty (by decide)

theorem mem_snd_add_rows (rs : List Row) (next : Nat) (pr : Nat × Row)
    (h : pr ∈ rs.enum.map (fun p => (next + p.1, p.2))) : pr.2 ∈ rs := by
  obtain ⟨q, hq, hqe⟩ := List.mem_map.1 h
  rw [← hqe]
  rw [List.enum_eq_zip_range] at hq
  exact (List.of_mem_zip hq).2

/-- C9: appending input rows without outputs creates every new job OPEN over
a fully unset output row; appending with outputs creates every new job
FINISHED. -/
theorem add_numpy_arrays_status (ed : ExperimentData) (inp : List Row) :
    (∀ p ∈ (ed.add_numpy_arrays inp none).jobs.jobs.drop ed.jobs.jobs.length,
      p.2 = Status.opened) ∧
    (∀ p ∈ (ed.add_numpy_arrays inp none).output_data.rows.drop
        ed.output_data.rows.length, ∀ c ∈ p.2, c = Cell.unset) ∧
    (∀ out : List Row,
      ∀ p ∈ (ed.add_numpy_arrays inp (some out)).jobs.jobs.drop
        ed.jobs.jobs.length, p.2 = Status.finished) := by
  refine ⟨?_, ?_, ?_⟩
  · intro p hp
    have he : (ed.add_numpy_arrays inp none).jobs.jobs =
        ed.jobs.jobs ++ (List.range inp.length).map
          (fun k => (ed.jobs.next_index + k, Status.opened)) := rfl
    rw [he, List.drop_left] at hp
    obtain ⟨k, _, hk⟩ := List.mem_map.1 hp
    rw [← hk]
  · intro p hp
    have he : (ed.add_numpy_arrays inp none).output_data.rows =
        ed.output_data.rows ++
          (List.replicate inp.length
            (List.replicate ed.output_data.cols Cell.unset)).enum.map
            (fun q => (ed.output_data.next_index + q.1, q.2)) := rfl
    rw [he, List.drop_left] at hp
    have hrow := mem_snd_add_rows _ _ _ hp
    intro c hc
    rw [List.eq_of_mem_replicate hrow] at hc
    exact List.eq_of_mem_replicate hc
  · intro out p hp
    have he : (ed.add_numpy_arrays inp (some out)).jobs.jobs =
        ed.jobs.jobs ++ (List.range inp.length).map
          (fun k => (ed.jobs.next_index + k, Status.finished)) := rfl
    rw [he, List.drop_left] at hp
    obtain ⟨k, _, hk⟩ := List.mem_map.1 hp
    rw [← hk]

/-! ## Cluster mode: at-most-once claiming -/

theorem claim_step_none (ed ed1 : ExperimentData)
    (h : claim_step ed = (ed1, none)) : ed1 = ed := by
  rw [claim_step] at h
  cases ha : ed.access_open_job_data with
  | none =>
    rw [ha] at h
    exact (Prod.mk.injEq _ _ _ _ ▸ h).1.symm
  | some pr =>
    obtain ⟨e1, d⟩ := pr
    rw [ha] at h
    simp at h

theorem claim_step_some (ed ed1 : ExperimentData) (j : Nat)
    (h : claim_step ed = (ed1, some j)) :
    j ∈ ed.jobs.openIndices ∧
    ed1 = { ed with jobs := ed.jobs.mark_as_in_progress j } := by
  rw [claim_step] at h
  cases ha : ed.access_open_job_data with
  | none =>
    rw [ha] at h
    simp at h
  | some pr =>
    obtain ⟨e1, d⟩ := pr
    rw [ha] at h
    simp only [Prod.mk.injEq, Option.some.injEq] at h
    obtain ⟨hmem, _, hform⟩ := access_open_job_data_some ed e1 d ha
    refine ⟨h.2 ▸ hmem, ?_⟩
    rw [← h.1, hform, h.2]

/-- No atomic cluster event ever re-opens a job. -/
theorem mem_open_cluster_apply (ed : ExperimentData) (e : ClusterEvent) (i : Nat)
    (hi : i ∈ (cluster_apply ed e).jobs.openIndices) :
    i ∈ ed.jobs.openIndices := by
  cases e with
  | claim w =>
    rw [show cluster_apply ed (ClusterEvent.claim w) = (claim_step ed).1 from rfl] at hi
    rcases hcs : claim_step ed with ⟨ed1, res⟩
    rw [hcs] at hi
    cases res with
    | some j =>
      obtain ⟨_, hform⟩ := claim_step_some ed ed1 j hcs
      rw [hform] at hi
      exact (JobQueue.mem_open_mark_as_in_progress ed.jobs j i hi).1
    | none =>
      rw [claim_step_none ed ed1 hcs] at hi
      exact hi
  | writeFin w d => exact (mem_open_set_design ed d i hi).1
  | writeErr w j => exact (mem_open_set_error ed j i hi).1

/-- An index that is not OPEN is never handed out by a later claim. -/
theorem not_open_not_claimed :
    ∀ (tr : List ClusterEvent) (ed : ExperimentData) (i : Nat),
      i ∉ ed.jobs.openIndices → i ∉ claimed_indices ed tr := by
  intro tr
  induction tr with
  | nil =>
    intro ed i _ hc
    cases hc
  | cons e tr ih =>
    intro ed i h
    cases e with
    | claim w =>
      rcases hcs : claim_step ed with ⟨ed1, res⟩
      cases res with
      | some j =>
        simp only [claimed_indices, hcs]
        intro hmem
        obtain ⟨hjmem, hform⟩ := claim_step_some ed ed1 j hcs
        rcases List.mem_cons.1 hmem with hc | hc
        · exact h (hc ▸ hjmem)
        · refine ih ed1 i ?_ hc
          rw [hform]
          intro hm
          exact h (JobQueue.mem_open_mark_as_in_progress ed.jobs j i hm).1
      | none =>
        simp only [claimed_indices, hcs]
        rw [claim_step_none ed ed1 hcs]
        exact ih ed i h
    | writeFin w d =>
      simp only [claimed_indices]
      exact ih _ i (fun hm => h (mem_open_set_design ed d i hm).1)
    | writeErr w j =>
      simp only [claimed_indices]
      exact ih _ i (fun hm => h (mem_open_set_error ed j i hm).1)

/-- In any interleaving of atomic cluster events the successful claims hand
out pairwise distinct job numbers: no two workers ever claim the same
index. -/
theorem claimed_indices_nodup :
    ∀ (tr : List ClusterEvent) (ed : ExperimentData),
      (claimed_indices ed tr).Nodup := by
  intro tr
  induction tr with
  | nil => intro ed; exact List.Pairwise.nil
  | cons e tr ih =>
    intro ed
    cases e with
    | claim w =>
      rcases hcs : claim_step ed with ⟨ed1, res⟩
      cases res with
      | some j =>
        simp only [claimed_indices, hcs]
        refine List.nodup_cons.2 ⟨?_, ih ed1⟩
        apply not_open_not_claimed
        obtain ⟨_, hform⟩ := claim_step_some ed ed1 j hcs
        rw [hform]
        intro hm
        exact (JobQueue.mem_open_mark_as_in_progress ed.jobs j j hm).2 rfl
      | none =>
        simp only [claimed_indices, hcs]
        exact ih ed1
    | writeFin w d =>
      simp only [claimed_indices]
      exact ih _
    | writeErr w j =>
      simp only [claimed_indices]
      exact ih _

/-- In a protocol-valid trace, a job that starts OPEN and ends in a terminal
status must have been claimed: the terminal status can only come from a
writeback, which validity ties to an earlier claim of that index. -/
theorem cluster_valid_claim_of_terminal :
    ∀ (tr : List ClusterEvent) (ed : ExperimentData)
      (owned : List (Nat × Nat)) (j : Nat),
      cluster_valid_go ed owned tr = true →
      j ∉ owned.map Prod.snd →
      ed.jobs.status j = some Status.opened →
      ((cluster_run ed tr).jobs.status j = some Status.finished ∨
        (cluster_run ed tr).jobs.status j = some Status.error) →
      j ∈ claimed_indices ed tr := by
  intro tr
  induction tr with
  | nil =>
    intro ed owned j _ _ hst hterm
    rcases hterm with ht | ht <;>
      · rw [show cluster_run ed [] = ed from rfl, hst] at ht
        cases ht
  | cons e tr ih =>
    intro ed owned j hval hjo hst hterm
    have hrunstep : ∀ e2, cluster_run ed (e2 :: tr) =
        cluster_run (cluster_apply ed e2) tr := fun _ => rfl
    cases e with
    | claim w =>
      rcases hcs : claim_step ed with ⟨ed1, res⟩
      have happly : cluster_apply ed (ClusterEvent.claim w) = ed1 := by
        rw [show cluster_apply ed (ClusterEvent.claim w) = (claim_step ed).1 from rfl,
          hcs]
      cases res with
      | some j2 =>
        simp only [claimed_indices, hcs]
        by_cases hjj : j2 = j
        · exact hjj ▸ List.mem_cons_self _ _
        · apply List.mem_cons_of_mem
          have hval2 : cluster_valid_go ed1 ((w, j2) :: owned) tr = true := by
            simpa only [cluster_valid_go, hcs] using hval
          obtain ⟨hjmem, hform⟩ := claim_step_some ed ed1 j2 hcs
          have hst1 : ed1.jobs.status j = some Status.opened := by
            rw [hform]
            show (ed.jobs.mark_as_in_progress j2).status j = _
            rw [JobQueue.status_mark_as_in_progress_ne ed.jobs j2 j
              (fun hc => hjj hc.symm)]
            exact hst
          have hjo2 : j ∉ ((w, j2) :: owned).map Prod.snd := by
            simp only [List.map_cons, List.mem_cons, not_or]
            exact ⟨fun hc => hjj hc.symm, hjo⟩
          have hterm2 : (cluster_run ed1 tr).jobs.status j = some Status.finished ∨
              (cluster_run ed1 tr).jobs.status j = some Status.error := by
            rw [hrunstep (ClusterEvent.claim w), happly] at hterm
            exact hterm
          exact ih ed1 _ j hval2 hjo2 hst1 hterm2
      | none =>
        have hed : ed1 = ed := claim_step_none ed ed1 hcs
        simp only [claimed_indices, hcs]
        have hval2 : cluster_valid_go ed1 owned tr = true := by
          simpa only [cluster_valid_go, hcs] using hval
        have hterm2 : (cluster_run ed1 tr).jobs.status j = some Status.finished ∨
            (cluster_run ed1 tr).jobs.status j = some Status.error := by
          rw [hrunstep (ClusterEvent.claim w), happly] at hterm
          exact hterm
        exact ih ed1 owned j hval2 hjo (hed ▸ hst) hterm2
    | writeFin w d =>
      simp only [claimed_indices]
      simp only [cluster_valid_go, Bool.and_eq_true] at hval
      obtain ⟨hcon, hval2⟩ := hval
      have hdj : d.job_number ≠ j := by
        intro hc
        apply hjo
        rw [← hc]
        have hmem : (w, d.job_number) ∈ owned := by
          simpa using hcon
        exact List.mem_map_of_mem Prod.snd hmem
      have hst1 : (ed.set_design d).jobs.status j = some Status.opened := by
        rw [status_set_design_ne ed d j (fun hc => hdj hc.symm)]
        exact hst
      have hterm2 : ((cluster_run (ed.set_design d) tr)).jobs.status j =
            some Status.finished ∨
          ((cluster_run (ed.set_design d) tr)).jobs.status j = some Status.error := by
        rw [hrunstep (ClusterEvent.writeFin w d)] at hterm
        exact hterm
      exact ih _ owned j hval2 hjo hst1 hterm2
    | writeErr w j2 =>
      simp only [claimed_indices]
      simp only [cluster_valid_go, Bool.and_eq_true] at hval
      obtain ⟨hcon, hval2⟩ := hval
      have hdj : j2 ≠ j := by
        intro hc
        apply hjo
        rw [← hc]
        have hmem : (w, j2) ∈ owned := by
          simpa using hcon
        exact List.mem_map_of_mem Prod.snd hmem
      have hst1 : (ed.set_error j2).jobs.status j = some Status.opened := by
        rw [status_set_error_ne ed j2 j (fun hc => hdj hc.symm)]
        exact hst
      have hterm2 : ((cluster_run (ed.set_error j2) tr)).jobs.status j =
            some Status.finished ∨
          ((cluster_run (ed.set_error j2) tr)).jobs.status j = some Status.error := by
        rw [hrunstep (ClusterEvent.writeErr w j2)] at hterm
        exact hterm
      exact ih _ owned j hval2 hjo hst1 hterm2

/-- C2: under cluster mode, in any interleaving of the workers' atomic
lock-held critical sections that follows the protocol, the successful claims
are pairwise distinct (no two workers ever claim the same index), and a job
that starts OPEN and reaches a terminal status is claimed — transitions from
OPEN to IN_PROGRESS — exactly once. -/
theorem cluster_at_most_once (ed : ExperimentData) (tr : List ClusterEvent)
    (j : Nat) (hvalid : cluster_valid ed tr = true)
    (hopen : ed.jobs.status j = some Status.opened)
    (hterm : (cluster_run ed tr).jobs.status j = some Status.finished ∨
      (cluster_run ed tr).jobs.status j = some Status.error) :
    (claimed_indices ed tr).Nodup ∧ (claimed_indices ed tr).count j = 1 := by
  have hnd := claimed_indices_nodup tr ed
  have hmem := cluster_valid_claim_of_terminal tr ed [] j hvalid
    (by simp) hopen hterm
  exact ⟨hnd, List.count_eq_one_of_mem hnd hmem⟩

/-- Witness for C2: two workers interleaved over two OPEN jobs. -/
theorem cluster_at_most_once_witness :
    (claimed_indices edW2 trC2).Nodup ∧ (claimed_indices edW2 trC2).count 0 = 1 :=
  cluster_at_most_once edW2 trC2 0 (by decide) (by decide) (Or.inl (by decide))

end ExperimentData

/-! ## Alignment of the three tables under append / remove / select -/

theorem map_fst_filter_fst (l : List (Nat × α)) (g : Nat → Bool) :
    (l.filter (fun p => g p.1)).map Prod.fst = (l.map Prod.fst).filter g := by
  induction l with
  | nil => rfl
  | cons p l ih =>
    cases hg : g p.1 <;> simp [List.filter_cons, hg, ih]

theorem lookupIdx_isSome_congr (A : List (Nat × α)) (B : List (Nat × β))
    (h : A.map Prod.fst = B.map Prod.fst) (i : Nat) :
    (lookupIdx A i).isSome = (lookupIdx B i).isSome := by
  by_cases hm : i ∈ B.map Prod.fst
  · have hmA : i ∈ A.map Prod.fst := by rw [h]; exact hm
    rw [(lookupIdx_isSome_iff A i).2 hmA, (lookupIdx_isSome_iff B i).2 hm]
  · have ha : (lookupIdx A i).isSome = false := by
      rw [Bool.eq_false_iff]
      intro hc
      apply hm
      rw [← h]
      exact (lookupIdx_isSome_iff A i).1 hc
    have hb : (lookupIdx B i).isSome = false := by
      rw [Bool.eq_false_iff]
      intro hc
      exact hm ((lookupIdx_isSome_iff B i).1 hc)
    rw [ha, hb]

theorem indices_select_list (rows : List (Nat × α)) (idx : List Nat) :
    (idx.filterMap (fun i => (lookupIdx rows i).map (fun r => (i, r)))).map
        Prod.fst =
      idx.filter (fun i => (lookupIdx rows i).isSome) := by
  induction idx with
  | nil => rfl
  | cons i idx ih =>
    cases h : lookupIdx rows i with
    | none => simp [List.filterMap_cons, List.filter_cons, h, ih]
    | some r => simp [List.filterMap_cons, List.filter_cons, h, ih]

namespace DataStore

theorem next_index_eq (d : DataStore) : d.next_index = idxNext d.indices := by
  rw [idxNext, DataStore.indices, List.foldl_map]
  rfl

theorem indices_add (d : DataStore) (rs : List Row) :
    (d.add rs).indices =
      d.indices ++ (List.range rs.length).map (fun k => idxNext d.indices + k) := by
  show (d.rows ++ rs.enum.map (fun p => (d.next_index + p.1, p.2))).map Prod.fst = _
  rw [List.map_append]
  congr 1
  rw [List.map_map]
  rw [show Prod.fst ∘ (fun p : Nat × Row => (d.next_index + p.1, p.2)) =
    (fun x => d.next_index + x) ∘ Prod.fst from rfl]
  rw [← List.map_map, List.enum_map_fst, next_index_eq]

theorem indices_add_empty_rows (d : DataStore) (n : Nat) :
    (d.add_empty_rows n).indices =
      d.indices ++ (List.range n).map (fun k => idxNext d.indices + k) := by
  rw [DataStore.add_empty_rows, indices_add, List.length_replicate]

theorem indices_remove (d : DataStore) (idx : List Nat) :
    (d.remove idx).indices = d.indices.filter (fun i => !(idx.contains i)) :=
  map_fst_filter_fst d.rows (fun i => !(idx.contains i))

theorem indices_select (d : DataStore) (idx : List Nat) :
    (d.select idx).indices = idx.filter (fun i => (lookupIdx d.rows i).isSome) :=
  indices_select_list d.rows idx

end DataStore

namespace JobQueue

theorem jq_next_index_eq (q : JobQueue) : q.next_index = idxNext q.indices := by
  rw [idxNext, JobQueue.indices, List.foldl_map]
  rfl

theorem jq_indices_add (q : JobQueue) (n : Nat) (st : Status) :
    (q.add n st).indices =
      q.indices ++ (List.range n).map (fun k => idxNext q.indices + k) := by
  show (q.jobs ++ (List.range n).map (fun k => (q.next_index + k, st))).map
      Prod.fst = _
  rw [List.map_append]
  congr 1
  rw [List.map_map]
  rw [show Prod.fst ∘ (fun k : Nat => (q.next_index + k, st)) =
    (fun k => q.next_index + k) from rfl]
  rw [jq_next_index_eq]

theorem jq_indices_remove (q : JobQueue) (idx : List Nat) :
    (q.remove idx).indices = q.indices.filter (fun i => !(idx.contains i)) :=
  map_fst_filter_fst q.jobs (fun i => !(idx.contains i))

theorem jq_indices_select (q : JobQueue) (idx : List Nat) :
    (q.select idx).indices = idx.filter (fun i => (lookupIdx q.jobs i).isSome) :=
  indices_select_list q.jobs idx

end JobQueue

namespace ExperimentData

/-- Every valid structural edit performed through the `ExperimentData`
interface preserves the index alignment of the three tables. -/
theorem aligned_apply_op (ed : ExperimentData) (o : EDOp)
    (hv : validOp o = true) (ha : aligned ed) : aligned (apply_op ed o) := by
  obtain ⟨h1, h2⟩ := ha
  cases o with
  | add data =>
    constructor
    · show (ed.input_data.add data).indices =
        (ed.output_data.add_empty_rows data.length).indices
      rw [DataStore.indices_add, DataStore.indices_add_empty_rows, h1]
    · show (ed.input_data.add data).indices =
        (ed.jobs.add data.length Status.opened).indices
      rw [DataStore.indices_add, JobQueue.jq_indices_add, h2]
  | addArrays inp out =>
    cases out with
    | none =>
      constructor
      · show (ed.input_data.add inp).indices =
          (ed.output_data.add_empty_rows inp.length).indices
        rw [DataStore.indices_add, DataStore.indices_add_empty_rows, h1]
      · show (ed.input_data.add inp).indices =
          (ed.jobs.add inp.length Status.opened).indices
        rw [DataStore.indices_add, JobQueue.jq_indices_add, h2]
    | some o =>
      simp only [validOp, beq_iff_eq] at hv
      constructor
      · show (ed.input_data.add inp).indices = (ed.output_data.add o).indices
        rw [DataStore.indices_add, DataStore.indices_add, h1, hv]
      · show (ed.input_data.add inp).indices =
          (ed.jobs.add inp.length Status.finished).indices
        rw [DataStore.indices_add, JobQueue.jq_indices_add, h2]
  | removeBottom n =>
    by_cases hn : n = 0
    · simp only [apply_op, remove_rows_bottom, if_pos hn]
      exact ⟨h1, h2⟩
    · simp only [apply_op, remove_rows_bottom, if_neg hn]
      constructor
      · show (ed.input_data.remove _).indices = (ed.output_data.remove _).indices
        rw [DataStore.indices_remove, DataStore.indices_remove, h1]
      · show (ed.input_data.remove _).indices = (ed.jobs.remove _).indices
        rw [DataStore.indices_remove, JobQueue.jq_indices_remove, h2]
  | select idx =>
    constructor
    · show (ed.input_data.select idx).indices = (ed.output_data.select idx).indices
      rw [DataStore.indices_select, DataStore.indices_select]
      exact List.filter_congr
        (fun i _ => lookupIdx_isSome_congr ed.input_data.rows ed.output_data.rows h1 i)
    · show (ed.input_data.select idx).indices = (ed.jobs.select idx).indices
      rw [DataStore.indices_select, JobQueue.jq_indices_select]
      exact List.filter_congr
        (fun i _ => lookupIdx_isSome_congr ed.input_data.rows ed.jobs.jobs h2 i)

/-- C5: along any sequence of valid appends, removals and selections
performed through the `ExperimentData` interface, the job ledger, the input
store and the output store keep the same index list, hence the same number
of rows over the same index set. -/
theorem alignment_invariant (ops : List EDOp) (ed : ExperimentData)
    (hv : ∀ o ∈ ops, validOp o = true) (ha : aligned ed) :
    aligned (ops.foldl apply_op ed) ∧
    (ops.foldl apply_op ed).input_data.rows.length =
      (ops.foldl apply_op ed).output_data.rows.length ∧
    (ops.foldl apply_op ed).input_data.rows.length =
      (ops.foldl apply_op ed).jobs.jobs.length := by
  have hal : aligned (ops.foldl apply_op ed) := by
    induction ops generalizing ed with
    | nil => exact ha
    | cons o ops ih =>
      rw [List.foldl_cons]
      exact ih (apply_op ed o)
        (fun o2 ho2 => hv o2 (List.mem_cons_of_mem o ho2))
        (aligned_apply_op ed o (hv o (List.mem_cons_self o ops)) ha)
  refine ⟨hal, ?_, ?_⟩
  · have hlen := congrArg List.length hal.1
    simpa [DataStore.indices] using hlen
  · have hlen := congrArg List.length hal.2
    simpa [DataStore.indices, JobQueue.indices] using hlen

/-- Witness for C5: a concrete sequence of the four edit kinds from the
empty dataset. -/
theorem alignment_invariant_witness :
    aligned (opsC5.foldl apply_op ed0) ∧
    (opsC5.foldl apply_op ed0).input_data.rows.length =
      (opsC5.foldl apply_op ed0).output_data.rows.length ∧
    (opsC5.foldl apply_op ed0).input_data.rows.length =
      (opsC5.foldl apply_op ed0).jobs.jobs.length :=
  alignment_invariant opsC5 ed0 (by decide) ⟨rfl, rfl⟩

end ExperimentData

end F3dasm
